import Mathlib

/-!
Shallow embedding of `src/key_code.rs` from the keyberon repository:
the `KeyCode` enumeration (HID Usage Page 0x07) and the 8-byte USB HID
boot-keyboard report `KbHidReport` with its `pressed` insertion routine.

Machine integers (`u8`) are modelled as `Nat`; every operation performed
by the source (`|=` of modifier bits, `1 << (k - 0xE0)` with `k ≤ 0xE7`,
storing discriminants `< 0x100` into report slots) stays below `2^8`, so
no wrap-around is possible and no explicit `% 256` is required.
-/

/-- The `KeyCode` enum of the source, `repr(u8)`: a fieldless enumeration
whose discriminants are exactly `0x00..=0xA4` (`No` through `ExSel`) and
`0xE0..=0xFB` (`LCtrl` through `MediaCalc`).  We embed it as the subtype of
its discriminant values; the derived `Ord` of the Rust enum compares
discriminants, which is `Nat` order on `val`. -/
abbrev KeyCode : Type := { n : Nat // n ≤ 0xA4 ∨ (0xE0 ≤ n ∧ n ≤ 0xFB) }

/-- `KeyCode::No = 0x00`. -/
def KeyCode.No : KeyCode := ⟨0x00, by decide⟩

/-- `KeyCode::ErrorRollOver = 0x01`. -/
def KeyCode.ErrorRollOver : KeyCode := ⟨0x01, by decide⟩

/-- `KeyCode::PostFail = 0x02`. -/
def KeyCode.PostFail : KeyCode := ⟨0x02, by decide⟩

/-- `KeyCode::ErrorUndefined = 0x03`. -/
def KeyCode.ErrorUndefined : KeyCode := ⟨0x03, by decide⟩

/-- `KeyCode::A = 0x04`. -/
def KeyCode.A : KeyCode := ⟨0x04, by decide⟩

/-- `KeyCode::B = 0x05`. -/
def KeyCode.B : KeyCode := ⟨0x05, by decide⟩

/-- `KeyCode::C = 0x06`. -/
def KeyCode.C : KeyCode := ⟨0x06, by decide⟩

/-- `KeyCode::D = 0x07`. -/
def KeyCode.D : KeyCode := ⟨0x07, by decide⟩

/-- `KeyCode::E = 0x08`. -/
def KeyCode.E : KeyCode := ⟨0x08, by decide⟩

/-- `KeyCode::F = 0x09`. -/
def KeyCode.F : KeyCode := ⟨0x09, by decide⟩

/-- `KeyCode::G = 0x0A`. -/
def KeyCode.G : KeyCode := ⟨0x0A, by decide⟩

/-- `KeyCode::LCtrl = 0xE0`. -/
def KeyCode.LCtrl : KeyCode := ⟨0xE0, by decide⟩

/-- `KeyCode::LShift = 0xE1`. -/
def KeyCode.LShift : KeyCode := ⟨0xE1, by decide⟩

/-- `KeyCode::LAlt = 0xE2`. -/
def KeyCode.LAlt : KeyCode := ⟨0xE2, by decide⟩

/-- `KeyCode::LGui = 0xE3`. -/
def KeyCode.LGui : KeyCode := ⟨0xE3, by decide⟩

/-- `KeyCode::RCtrl = 0xE4`. -/
def KeyCode.RCtrl : KeyCode := ⟨0xE4, by decide⟩

/-- `KeyCode::RShift = 0xE5`. -/
def KeyCode.RShift : KeyCode := ⟨0xE5, by decide⟩

/-- `KeyCode::RAlt = 0xE6`. -/
def KeyCode.RAlt : KeyCode := ⟨0xE6, by decide⟩

/-- `KeyCode::RGui = 0xE7`. -/
def KeyCode.RGui : KeyCode := ⟨0xE7, by decide⟩

/-- `KeyCode::MediaPlayPause = 0xE8`. -/
def KeyCode.MediaPlayPause : KeyCode := ⟨0xE8, by decide⟩

/-- `KeyCode::is_modifier`: `KeyCode::LCtrl <= self && self <= KeyCode::RGui`,
where the derived `Ord` compares discriminants. -/
def KeyCode.is_modifier (k : KeyCode) : Bool :=
  decide (KeyCode.LCtrl.val ≤ k.val) && decide (k.val ≤ KeyCode.RGui.val)

/-- `KeyCode::as_modifier_bit`: `1 << (self as u8 - KeyCode::LCtrl as u8)`
for modifiers, else `0`.  For modifiers `self - 0xE0 ≤ 7`, so neither the
`u8` subtraction nor the shift wraps. -/
def KeyCode.as_modifier_bit (k : KeyCode) : Nat :=
  if k.is_modifier then 1 <<< (k.val - KeyCode.LCtrl.val) else 0

/-- The 8-byte report `KbHidReport([u8; 8])`, split as byte 0 (the modifier
bitfield), byte 1 (reserved) and bytes 2..8 (the six key slots, kept as a
list so that the slot scan of `pressed` is the list scan). -/
structure KbHidReport where
  modifiers : Nat
  reserved : Nat
  keys : List Nat
deriving DecidableEq, Repr

/-- `KbHidReport::default()`: all eight bytes zero (the derived `Default`
of `[u8; 8]`). -/
def KbHidReport.default : KbHidReport :=
  { modifiers := 0, reserved := 0, keys := List.replicate 6 0 }

/-- `KbHidReport::as_bytes`: the report as its byte sequence. -/
def KbHidReport.as_bytes (r : KbHidReport) : List Nat :=
  r.modifiers :: r.reserved :: r.keys

/-- `KbHidReport::set_all`: `for c in &mut self.0[2..] { *c = kc as u8 }`. -/
def KbHidReport.set_all (r : KbHidReport) (kc : KeyCode) : KbHidReport :=
  { r with keys := r.keys.map (fun _ => kc.val) }

/-- The slot scan of `pressed`'s default arm:
`self.0[2..].iter_mut().find(|c| **c == 0).map(|c| *c = kc as u8)` —
`some` of the updated slots when a zero slot exists (the first one is
overwritten with `v`), `none` when every slot is nonzero. -/
def setFirstZero (v : Nat) : List Nat → Option (List Nat)
  | [] => none
  | c :: cs =>
    if c = 0 then some (v :: cs)
    else Option.map (fun cs' => c :: cs') (setFirstZero v cs)

/-- `KbHidReport::pressed`: the four-armed match of the source.  The arms
are matched on the discriminant: `No` is `0x00`; `ErrorRollOver`,
`PostFail`, `ErrorUndefined` are `0x01`, `0x02`, `0x03`; then the
`is_modifier` guard; then the wildcard slot-insertion arm with its
`unwrap_or_else` rollover. -/
def KbHidReport.pressed (r : KbHidReport) (kc : KeyCode) : KbHidReport :=
  if kc.val = 0x00 then r
  else if kc.val = 0x01 ∨ kc.val = 0x02 ∨ kc.val = 0x03 then r.set_all kc
  else if kc.is_modifier then { r with modifiers := r.modifiers ||| kc.as_modifier_bit }
  else
    match setFirstZero kc.val r.keys with
    | some ks => { r with keys := ks }
    | none => r.set_all KeyCode.ErrorRollOver

/-- `FromIterator<KeyCode> for KbHidReport`: start from `default` and call
`pressed` on each element in order. -/
def KbHidReport.from_iter (ks : List KeyCode) : KbHidReport :=
  ks.foldl KbHidReport.pressed KbHidReport.default

/-- The condition under which one `pressed` call overwrites all six key
slots (the source's `set_all`): the key code is one of the three error
codes, or it is an ordinary code (neither `No`, an error code, nor a
modifier) and no slot of the report is zero. -/
def KbHidReport.overwrites_all (r : KbHidReport) (k : KeyCode) : Prop :=
  (k.val = 0x01 ∨ k.val = 0x02 ∨ k.val = 0x03) ∨
  (3 < k.val ∧ k.is_modifier = false ∧ ¬ 0 ∈ r.keys)

instance (r : KbHidReport) (k : KeyCode) : Decidable (r.overwrites_all k) := by
  unfold KbHidReport.overwrites_all
  infer_instance

example : (KbHidReport.from_iter [KeyCode.LShift, KeyCode.A]).as_bytes
    = [0x02, 0x00, 0x04, 0, 0, 0, 0, 0] := by decide

example : (KbHidReport.from_iter
    [KeyCode.A, KeyCode.B, KeyCode.C, KeyCode.D, KeyCode.E, KeyCode.F,
     KeyCode.G]).as_bytes
    = [0, 0, 0x01, 0x01, 0x01, 0x01, 0x01, 0x01] := by decide

/-! Helper lemmas about the embedding. -/

/-- The `is_modifier` test is exactly the discriminant range `[0xE0, 0xE7]`. -/
theorem KeyCode.is_modifier_eq_true_iff (k : KeyCode) :
    k.is_modifier = true ↔ 0xE0 ≤ k.val ∧ k.val ≤ 0xE7 := by
  simp [KeyCode.is_modifier, KeyCode.LCtrl, KeyCode.RGui]

/-- `pressed` on `No` is the identity. -/
theorem KbHidReport.pressed_no (r : KbHidReport) (k : KeyCode) (h : k.val = 0) :
    r.pressed k = r := by
  simp [KbHidReport.pressed, h]

/-- `pressed` on the three error codes overwrites all slots. -/
theorem KbHidReport.pressed_err (r : KbHidReport) (k : KeyCode)
    (h : k.val = 1 ∨ k.val = 2 ∨ k.val = 3) : r.pressed k = r.set_all k := by
  rcases h with h | h | h <;> simp [KbHidReport.pressed, h]

/-- `pressed` on a modifier ORs its bit into byte 0. -/
theorem KbHidReport.pressed_mod (r : KbHidReport) (k : KeyCode)
    (h : k.is_modifier = true) :
    r.pressed k = { r with modifiers := r.modifiers ||| k.as_modifier_bit } := by
  have hv := (KeyCode.is_modifier_eq_true_iff k).1 h
  have h0 : ¬ k.val = 0 := by omega
  have h1 : ¬ (k.val = 1 ∨ k.val = 2 ∨ k.val = 3) := by omega
  simp [KbHidReport.pressed, h0, h1, h]

/-- `pressed` on an ordinary code is the slot scan. -/
theorem KbHidReport.pressed_ord (r : KbHidReport) (k : KeyCode)
    (h3 : 3 < k.val) (hm : k.is_modifier = false) :
    r.pressed k =
      match setFirstZero k.val r.keys with
      | some ks => { r with keys := ks }
      | none => r.set_all KeyCode.ErrorRollOver := by
  have h0 : ¬ k.val = 0 := by omega
  have h1 : ¬ (k.val = 1 ∨ k.val = 2 ∨ k.val = 3) := by omega
  simp [KbHidReport.pressed, h0, h1, hm]

/-- The slot scan fails exactly on slot lists without a zero. -/
theorem setFirstZero_eq_none_iff (v : Nat) (l : List Nat) :
    setFirstZero v l = none ↔ ¬ 0 ∈ l := by
  induction l with
  | nil => simp [setFirstZero]
  | cons c cs ih =>
    by_cases hc : c = 0
    · simp [setFirstZero, hc]
    · simp [setFirstZero, hc, Option.map_eq_none', ih, fun h => (Ne.symm hc) h]

/-- A successful slot scan splits the slots at the first zero. -/
theorem setFirstZero_some_spec (v : Nat) (l l' : List Nat)
    (h : setFirstZero v l = some l') :
    ∃ l1 l2, l = l1 ++ 0 :: l2 ∧ ¬ 0 ∈ l1 ∧ l' = l1 ++ v :: l2 := by
  induction l generalizing l' with
  | nil => simp [setFirstZero] at h
  | cons c cs ih =>
    by_cases hc : c = 0
    · refine ⟨[], cs, by simp [hc], by simp, ?_⟩
      simp [setFirstZero, hc] at h
      simp [h.symm]
    · simp only [setFirstZero, hc, if_false, Option.map_eq_some'] at h
      obtain ⟨cs', hcs', rfl⟩ := h
      obtain ⟨l1, l2, h1, h2, h3⟩ := ih cs' hcs'
      exact ⟨c :: l1, l2, by simp [h1], by simp [h2, fun h => (Ne.symm hc) h], by simp [h3]⟩

/-- A successful slot scan preserves the number of slots. -/
theorem setFirstZero_length (v : Nat) (l l' : List Nat)
    (h : setFirstZero v l = some l') : l'.length = l.length := by
  obtain ⟨l1, l2, h1, _, h3⟩ := setFirstZero_some_spec v l l' h
  simp [h1, h3]

/-- Values of the slots after a successful scan: old values or the new one. -/
theorem setFirstZero_mem (v x : Nat) (l l' : List Nat)
    (h : setFirstZero v l = some l') (hx : x ∈ l') : x ∈ l ∨ x = v := by
  obtain ⟨l1, l2, h1, _, h3⟩ := setFirstZero_some_spec v l l' h
  subst h1 h3
  simp at hx ⊢
  tauto

/-- Byte 0 after `pressed`: the old bitfield ORed with the key's modifier
bit (which is `0` for non-modifiers). -/
theorem KbHidReport.pressed_modifiers (r : KbHidReport) (k : KeyCode) :
    (r.pressed k).modifiers = r.modifiers ||| k.as_modifier_bit := by
  by_cases h0 : k.val = 0
  · have hm : k.is_modifier = false := by
      simp [KeyCode.is_modifier, KeyCode.LCtrl, KeyCode.RGui, h0]
    simp [KbHidReport.pressed, h0, KeyCode.as_modifier_bit, hm]
  by_cases h1 : k.val = 1 ∨ k.val = 2 ∨ k.val = 3
  · have hm : k.is_modifier = false := by
      rcases h1 with h | h | h <;>
        simp [KeyCode.is_modifier, KeyCode.LCtrl, KeyCode.RGui, h]
    simp [KbHidReport.pressed, h0, h1, KbHidReport.set_all,
      KeyCode.as_modifier_bit, hm]
  by_cases hm : k.is_modifier
  · simp [KbHidReport.pressed, h0, h1, hm]
  · simp only [Bool.not_eq_true] at hm
    simp only [KbHidReport.pressed, h0, h1, hm, if_false, Bool.false_eq_true]
    cases h : setFirstZero k.val r.keys <;>
      simp [KbHidReport.set_all, KeyCode.as_modifier_bit, hm]

/-- Byte 1 (reserved) is never written by `pressed`. -/
theorem KbHidReport.pressed_reserved (r : KbHidReport) (k : KeyCode) :
    (r.pressed k).reserved = r.reserved := by
  by_cases h0 : k.val = 0
  · simp [KbHidReport.pressed, h0]
  by_cases h1 : k.val = 1 ∨ k.val = 2 ∨ k.val = 3
  · simp [KbHidReport.pressed, h0, h1, KbHidReport.set_all]
  by_cases hm : k.is_modifier
  · simp [KbHidReport.pressed, h0, h1, hm]
  · simp only [Bool.not_eq_true] at hm
    simp only [KbHidReport.pressed, h0, h1, hm, if_false, Bool.false_eq_true]
    cases h : setFirstZero k.val r.keys <;> simp [KbHidReport.set_all]

/-- A successful slot scan adds one occurrence of the inserted value. -/
theorem setFirstZero_count_self (v : Nat) (l l' : List Nat) (hv : v ≠ 0)
    (h : setFirstZero v l = some l') : l'.count v = l.count v + 1 := by
  obtain ⟨l1, l2, h1, _, h3⟩ := setFirstZero_some_spec v l l' h
  subst h1 h3
  simp [List.count_append, List.count_cons, Ne.symm hv]
  omega

/-- A successful slot scan consumes exactly one zero slot. -/
theorem setFirstZero_count_zero (v : Nat) (l l' : List Nat) (hv : v ≠ 0)
    (h : setFirstZero v l = some l') : l'.count 0 + 1 = l.count 0 := by
  obtain ⟨l1, l2, h1, _, h3⟩ := setFirstZero_some_spec v l l' h
  subst h1 h3
  simp [List.count_append, List.count_cons, hv]
  omega

/-- Two different values inserted into the first zero slot of the same
slot list produce lists that agree up to swapping the two values. -/
theorem setFirstZero_swap (a b : Nat) :
    ∀ (cs X Y : List Nat), setFirstZero b cs = some X →
      setFirstZero a cs = some Y → (a :: X).Perm (b :: Y) := by
  intro cs
  induction cs with
  | nil => intro X Y hX; simp [setFirstZero] at hX
  | cons c cs ih =>
    intro X Y hX hY
    by_cases hc : c = 0
    · simp [setFirstZero, hc] at hX hY
      subst hX hY
      exact List.Perm.swap b a cs
    · simp only [setFirstZero, hc, if_false, Option.map_eq_some'] at hX hY
      obtain ⟨X', hX', rfl⟩ := hX
      obtain ⟨Y', hY', rfl⟩ := hY
      exact ((List.Perm.swap c a X').trans ((ih X' Y' hX' hY').cons c)).trans
        (List.Perm.swap b c Y')

/-- Inserting `a` then `b` and inserting `b` then `a` into the slots give
the same slots up to permutation, whenever all four scans succeed. -/
theorem setFirstZero_comm (a b : Nat) (ha : a ≠ 0) (hb : b ≠ 0) :
    ∀ (l la lab lb lba : List Nat),
      setFirstZero a l = some la → setFirstZero b la = some lab →
      setFirstZero b l = some lb → setFirstZero a lb = some lba →
      lab.Perm lba := by
  intro l
  induction l with
  | nil => intro la lab lb lba h; simp [setFirstZero] at h
  | cons c cs ih =>
    intro la lab lb lba h1 h2 h3 h4
    by_cases hc : c = 0
    · simp only [setFirstZero, hc, if_true, Option.some_inj] at h1 h3
      subst h1 h3
      simp only [setFirstZero, ha, if_false, Option.map_eq_some'] at h2
      obtain ⟨X, hX, rfl⟩ := h2
      simp only [setFirstZero, hb, if_false, Option.map_eq_some'] at h4
      obtain ⟨Y, hY, rfl⟩ := h4
      exact setFirstZero_swap a b cs X Y hX hY
    · simp only [setFirstZero, hc, if_false, Option.map_eq_some'] at h1 h3
      obtain ⟨la', h1', rfl⟩ := h1
      obtain ⟨lb', h3', rfl⟩ := h3
      simp only [setFirstZero, hc, if_false, Option.map_eq_some'] at h2 h4
      obtain ⟨lab', h2', rfl⟩ := h2
      obtain ⟨lba', h4', rfl⟩ := h4
      exact (ih la' lab' lb' lba' h1' h2' h3' h4').cons c

/-- ORing the same bit pattern in twice is the same as once. -/
theorem lor_lor_self (m b : Nat) : (m ||| b) ||| b = m ||| b := by
  apply Nat.eq_of_testBit_eq
  intro i
  simp [Nat.testBit_or, Bool.or_assoc]

/-- Overwriting every slot with a constant is `replicate` over the length. -/
theorem list_map_const (l : List Nat) (v : Nat) :
    l.map (fun _ => v) = List.replicate l.length v := by
  induction l with
  | nil => rfl
  | cons c cs ih => simp [ih, List.replicate_succ]

/-! Claim theorems. -/

/-- C6: `is_modifier k` returns `true` if and only if the numeric value of
`k` lies in the inclusive range `[0xE0, 0xE7]`. -/
theorem claim_C6_is_modifier_range (k : KeyCode) :
    k.is_modifier = true ↔ 0xE0 ≤ k.val ∧ k.val ≤ 0xE7 :=
  KeyCode.is_modifier_eq_true_iff k

/-- C7: `as_modifier_bit k` is `1` shifted left by `k − 0xE0` when `k` is a
modifier (so the `i`-th modifier `0xE0 + i` gives `1 <<< i`), and `0` when
`k` is not a modifier. -/
theorem claim_C7_as_modifier_bit (k : KeyCode) :
    (k.is_modifier = true → k.as_modifier_bit = 1 <<< (k.val - 0xE0)) ∧
    (k.is_modifier = false → k.as_modifier_bit = 0) ∧
    (∀ i, i ≤ 7 → k.val = 0xE0 + i → k.as_modifier_bit = 1 <<< i) := by
  refine ⟨?_, ?_, ?_⟩
  · intro h
    simp [KeyCode.as_modifier_bit, h, KeyCode.LCtrl]
  · intro h
    simp [KeyCode.as_modifier_bit, h]
  · intro i hi hv
    have hm : k.is_modifier = true :=
      (KeyCode.is_modifier_eq_true_iff k).2 (by omega)
    simp [KeyCode.as_modifier_bit, hm, KeyCode.LCtrl, hv]

/-- C7 witness: concrete instances — `LShift` (a modifier, the `1`-th one)
and `A` (not a modifier). -/
theorem claim_C7_witness :
    KeyCode.LShift.as_modifier_bit = 1 <<< (KeyCode.LShift.val - 0xE0) ∧
    KeyCode.A.as_modifier_bit = 0 ∧
    KeyCode.LShift.as_modifier_bit = 1 <<< 1 :=
  ⟨(claim_C7_as_modifier_bit KeyCode.LShift).1 (by decide),
   (claim_C7_as_modifier_bit KeyCode.A).2.1 (by decide),
   (claim_C7_as_modifier_bit KeyCode.LShift).2.2 1 (by decide) (by decide)⟩

/-- C9: the numeric values of the eight modifier key codes are the wire
contract values `0xE0 .. 0xE7`. -/
theorem claim_C9_modifier_values :
    KeyCode.LCtrl.val = 0xE0 ∧ KeyCode.LShift.val = 0xE1 ∧
    KeyCode.LAlt.val = 0xE2 ∧ KeyCode.LGui.val = 0xE3 ∧
    KeyCode.RCtrl.val = 0xE4 ∧ KeyCode.RShift.val = 0xE5 ∧
    KeyCode.RAlt.val = 0xE6 ∧ KeyCode.RGui.val = 0xE7 := by
  decide

/-- C8: `default` is the all-zero 8-byte report, and `from_iter` is the
fold of `pressed` over the key codes starting from `default`: it maps the
empty sequence to `default` and appending one key code applies one more
`pressed`. -/
theorem claim_C8_default_from_iter :
    KbHidReport.default.as_bytes = [0, 0, 0, 0, 0, 0, 0, 0] ∧
    KbHidReport.from_iter [] = KbHidReport.default ∧
    ∀ (ks : List KeyCode) (k : KeyCode),
      KbHidReport.from_iter (ks ++ [k]) = (KbHidReport.from_iter ks).pressed k := by
  refine ⟨by decide, rfl, ?_⟩
  intro ks k
  simp [KbHidReport.from_iter, List.foldl_append]

/-- C5: after rollover (all six key slots hold `ErrorRollOver = 0x01`),
pressing any key code twice yields the same report as pressing it once. -/
theorem claim_C5_rollover_idem (r : KbHidReport) (k : KeyCode)
    (h : ∀ v ∈ r.keys, v = 1) :
    (r.pressed k).pressed k = r.pressed k := by
  by_cases h0 : k.val = 0
  · rw [KbHidReport.pressed_no r k h0, KbHidReport.pressed_no r k h0]
  by_cases h1 : k.val = 1 ∨ k.val = 2 ∨ k.val = 3
  · rw [KbHidReport.pressed_err r k h1, KbHidReport.pressed_err _ k h1]
    simp [KbHidReport.set_all, List.map_map]
  by_cases hm : k.is_modifier
  · rw [KbHidReport.pressed_mod r k hm, KbHidReport.pressed_mod _ k hm]
    simp [lor_lor_self]
  · have hm' : k.is_modifier = false := by simpa using hm
    have h3 : 3 < k.val := by omega
    have hz : ¬ 0 ∈ r.keys := fun h0m => absurd (h 0 h0m) (by decide)
    have hn : setFirstZero k.val r.keys = none :=
      (setFirstZero_eq_none_iff _ _).2 hz
    rw [KbHidReport.pressed_ord r k h3 hm', hn]
    have hz' : ¬ 0 ∈ (r.set_all KeyCode.ErrorRollOver).keys := by
      simp [KbHidReport.set_all, KeyCode.ErrorRollOver]
    have hn' : setFirstZero k.val (r.set_all KeyCode.ErrorRollOver).keys = none :=
      (setFirstZero_eq_none_iff _ _).2 hz'
    rw [KbHidReport.pressed_ord _ k h3 hm', hn']
    simp [KbHidReport.set_all, List.map_map]

/-- C5 witness: the rolled-over report with `A` pressed twice. -/
theorem claim_C5_witness :
    ((KbHidReport.mk 0 0 [1, 1, 1, 1, 1, 1]).pressed KeyCode.A).pressed KeyCode.A
      = (KbHidReport.mk 0 0 [1, 1, 1, 1, 1, 1]).pressed KeyCode.A :=
  claim_C5_rollover_idem (KbHidReport.mk 0 0 [1, 1, 1, 1, 1, 1]) KeyCode.A
    (by decide)

/-- C1: `pressed` satisfies the four-case specification on every report
with six key slots: `No` leaves the report unchanged; the three error
codes overwrite all six slots with the code; a modifier ORs
`1 <<< (k − 0xE0)` into byte 0; any other code is placed into the
lowest-indexed zero slot, and when no slot is zero, all six slots are
overwritten with `ErrorRollOver = 0x01`. -/
theorem claim_C1_pressed_cases (r : KbHidReport) (k : KeyCode)
    (hr : r.keys.length = 6) :
    (k.val = 0x00 → r.pressed k = r) ∧
    ((k.val = 0x01 ∨ k.val = 0x02 ∨ k.val = 0x03) →
      r.pressed k = { r with keys := List.replicate 6 k.val }) ∧
    (k.is_modifier = true →
      r.pressed k = { r with modifiers := r.modifiers ||| 1 <<< (k.val - 0xE0) }) ∧
    (3 < k.val → k.is_modifier = false →
      (0 ∈ r.keys →
        ∃ l1 l2, r.keys = l1 ++ 0 :: l2 ∧ ¬ 0 ∈ l1 ∧
          r.pressed k = { r with keys := l1 ++ k.val :: l2 }) ∧
      (¬ 0 ∈ r.keys →
        r.pressed k = { r with keys := List.replicate 6 0x01 })) := by
  refine ⟨KbHidReport.pressed_no r k, ?_, ?_, ?_⟩
  · intro h1
    rw [KbHidReport.pressed_err r k h1]
    simp [KbHidReport.set_all, list_map_const, hr]
  · intro hm
    rw [KbHidReport.pressed_mod r k hm]
    simp [KeyCode.as_modifier_bit, hm, KeyCode.LCtrl]
  · intro h3 hm
    constructor
    · intro hmem
      cases hsc : setFirstZero k.val r.keys with
      | none => exact absurd ((setFirstZero_eq_none_iff _ _).1 hsc) (by simp [hmem])
      | some ks =>
        obtain ⟨l1, l2, he, hnz, hks⟩ := setFirstZero_some_spec _ _ _ hsc
        refine ⟨l1, l2, he, hnz, ?_⟩
        rw [KbHidReport.pressed_ord r k h3 hm, hsc, hks]
    · intro hmem
      have hn : setFirstZero k.val r.keys = none :=
        (setFirstZero_eq_none_iff _ _).2 hmem
      rw [KbHidReport.pressed_ord r k h3 hm, hn]
      simp [KbHidReport.set_all, list_map_const, hr, KeyCode.ErrorRollOver]

/-- C1 witness: concrete instances of the first three cases and of the
slot-insertion case on the default report. -/
theorem claim_C1_witness :
    KbHidReport.default.pressed KeyCode.No = KbHidReport.default ∧
    KbHidReport.default.pressed KeyCode.PostFail
      = { KbHidReport.default with keys := List.replicate 6 0x02 } ∧
    KbHidReport.default.pressed KeyCode.LCtrl
      = { KbHidReport.default with modifiers := 0 ||| 1 <<< 0 } ∧
    (∃ l1 l2, KbHidReport.default.keys = l1 ++ 0 :: l2 ∧ ¬ 0 ∈ l1 ∧
      KbHidReport.default.pressed KeyCode.A
        = { KbHidReport.default with keys := l1 ++ 0x04 :: l2 }) :=
  ⟨(claim_C1_pressed_cases KbHidReport.default KeyCode.No (by decide)).1 (by decide),
   (claim_C1_pressed_cases KbHidReport.default KeyCode.PostFail (by decide)).2.1
     (by decide),
   (claim_C1_pressed_cases KbHidReport.default KeyCode.LCtrl (by decide)).2.2.1
     (by decide),
   ((claim_C1_pressed_cases KbHidReport.default KeyCode.A (by decide)).2.2.2
     (by decide) (by decide)).1 (by decide)⟩

/-- One `pressed` call never writes a modifier-range value into a slot. -/
theorem KbHidReport.pressed_slots_ok (r : KbHidReport) (k : KeyCode)
    (h : ∀ v ∈ r.keys, ¬ (0xE0 ≤ v ∧ v ≤ 0xE7)) :
    ∀ v ∈ (r.pressed k).keys, ¬ (0xE0 ≤ v ∧ v ≤ 0xE7) := by
  by_cases h0 : k.val = 0
  · rw [KbHidReport.pressed_no r k h0]; exact h
  by_cases h1 : k.val = 1 ∨ k.val = 2 ∨ k.val = 3
  · rw [KbHidReport.pressed_err r k h1]
    intro v hv
    simp [KbHidReport.set_all] at hv
    omega
  by_cases hm : k.is_modifier
  · rw [KbHidReport.pressed_mod r k hm]; exact h
  · have hm' : k.is_modifier = false := by simpa using hm
    have h3 : 3 < k.val := by omega
    rw [KbHidReport.pressed_ord r k h3 hm']
    cases hsc : setFirstZero k.val r.keys with
    | some ks =>
      simp only [hsc]
      intro v hv
      rcases setFirstZero_mem k.val v r.keys ks hsc hv with hin | rfl
      · exact h v hin
      · intro hcon
        exact absurd ((KeyCode.is_modifier_eq_true_iff k).2 hcon) (by simp [hm'])
    | none =>
      simp only [hsc]
      intro v hv
      simp [KbHidReport.set_all, KeyCode.ErrorRollOver] at hv
      omega

/-- Slot safety is preserved along any fold of `pressed`. -/
theorem foldl_pressed_slots_ok (ks : List KeyCode) :
    ∀ r : KbHidReport, (∀ v ∈ r.keys, ¬ (0xE0 ≤ v ∧ v ≤ 0xE7)) →
      ∀ v ∈ (ks.foldl KbHidReport.pressed r).keys, ¬ (0xE0 ≤ v ∧ v ≤ 0xE7) := by
  induction ks with
  | nil => intro r h; exact h
  | cons k ks ih =>
    intro r h
    rw [List.foldl_cons]
    exact ih (r.pressed k) (KbHidReport.pressed_slots_ok r k h)

/-- Byte 0 along a fold of `pressed` is the fold of the OR of the modifier
bits. -/
theorem foldl_pressed_modifiers (ks : List KeyCode) :
    ∀ r : KbHidReport, (ks.foldl KbHidReport.pressed r).modifiers =
      ks.foldl (fun m k => m ||| k.as_modifier_bit) r.modifiers := by
  induction ks with
  | nil => intro r; rfl
  | cons k ks ih =>
    intro r
    rw [List.foldl_cons, List.foldl_cons, ih, KbHidReport.pressed_modifiers]

/-- Bit `i < 8` of a key code's modifier bit pattern is set exactly for
the modifier of value `0xE0 + i`. -/
theorem as_modifier_bit_testBit (k : KeyCode) (i : Nat) (hi : i < 8) :
    (k.as_modifier_bit).testBit i = true ↔ k.val = 0xE0 + i := by
  by_cases hm : k.is_modifier
  · have hv := (KeyCode.is_modifier_eq_true_iff k).1 hm
    rw [KeyCode.as_modifier_bit, if_pos hm, Nat.shiftLeft_eq, one_mul,
      Nat.testBit_two_pow]
    simp only [decide_eq_true_eq, KeyCode.LCtrl]
    omega
  · have hm' : k.is_modifier = false := by simpa using hm
    rw [KeyCode.as_modifier_bit, if_neg (by simp [hm'])]
    simp only [Nat.zero_testBit, Bool.false_eq_true, false_iff]
    intro hcon
    exact absurd ((KeyCode.is_modifier_eq_true_iff k).2 (by omega)) (by simp [hm'])

/-- Bit `i < 8` of the folded modifier bitfield is set exactly when the
starting bitfield had it set or some pressed key is the modifier
`0xE0 + i`. -/
theorem testBit_foldl_or (i : Nat) (hi : i < 8) (ks : List KeyCode) :
    ∀ m : Nat,
      ((ks.foldl (fun m k => m ||| k.as_modifier_bit) m).testBit i = true ↔
        (m.testBit i = true ∨ ∃ k ∈ ks, k.val = 0xE0 + i)) := by
  induction ks with
  | nil => intro m; simp
  | cons k ks ih =>
    intro m
    rw [List.foldl_cons, ih]
    rw [Nat.testBit_or, Bool.or_eq_true]
    rw [as_modifier_bit_testBit k i hi]
    simp only [List.mem_cons]
    constructor
    · rintro ((h | h) | ⟨k', hk', hv⟩)
      · exact Or.inl h
      · exact Or.inr ⟨k, Or.inl rfl, h⟩
      · exact Or.inr ⟨k', Or.inr hk', hv⟩
    · rintro (h | ⟨k', (rfl | hk'), hv⟩)
      · exact Or.inl (Or.inl h)
      · exact Or.inl (Or.inr hv)
      · exact Or.inr ⟨k', hk', hv⟩

/-- C2: for every sequence of `pressed` calls starting from the default
report, bytes 2..8 never hold a value in the modifier range
`[0xE0, 0xE7]`, and bit `i` of byte 0 is set exactly when some modifier of
value `0xE0 + i` occurs in the sequence. -/
theorem claim_C2_sequence_invariant (ks : List KeyCode) :
    (∀ v ∈ (KbHidReport.from_iter ks).keys, ¬ (0xE0 ≤ v ∧ v ≤ 0xE7)) ∧
    (∀ i, i < 8 →
      ((KbHidReport.from_iter ks).modifiers.testBit i = true ↔
        ∃ k ∈ ks, k.val = 0xE0 + i)) := by
  constructor
  · exact foldl_pressed_slots_ok ks KbHidReport.default (by decide)
  · intro i hi
    rw [KbHidReport.from_iter, foldl_pressed_modifiers, testBit_foldl_or i hi ks]
    simp [KbHidReport.default]

/-- C2 witness: pressing `LShift` (value `0xE1`) sets bit 1 of byte 0. -/
theorem claim_C2_witness :
    (KbHidReport.from_iter [KeyCode.LShift]).modifiers.testBit 1 = true :=
  ((claim_C2_sequence_invariant [KeyCode.LShift]).2 1 (by decide)).2
    ⟨KeyCode.LShift, by decide, by decide⟩

/-- Once the slots are all `ErrorRollOver`, presses of `ErrorRollOver`
itself or of ordinary codes keep them so. -/
theorem foldl_pressed_roll_absorb (ks : List KeyCode)
    (hord : ∀ k ∈ ks, k.val = 1 ∨ (3 < k.val ∧ k.is_modifier = false)) :
    ∀ r : KbHidReport, r.keys = List.replicate 6 1 →
      (ks.foldl KbHidReport.pressed r).keys = List.replicate 6 1 := by
  induction ks with
  | nil => intro r h; exact h
  | cons k ks ih =>
    intro r h
    rw [List.foldl_cons]
    refine ih (fun k' hk' => hord k' (List.mem_cons_of_mem k hk')) _ ?_
    rcases hord k (List.mem_cons_self k ks) with h1 | ⟨h3, hm⟩
    · rw [KbHidReport.pressed_err r k (Or.inl h1)]
      simp [KbHidReport.set_all, h, list_map_const, h1]
    · have hz : ¬ 0 ∈ r.keys := by simp [h]
      have hn : setFirstZero k.val r.keys = none :=
        (setFirstZero_eq_none_iff _ _).2 hz
      rw [KbHidReport.pressed_ord r k h3 hm, hn]
      simp [KbHidReport.set_all, h, list_map_const, KeyCode.ErrorRollOver]

/-- Pressing more codes than there are zero slots — each press either
`ErrorRollOver` itself or an ordinary code — rolls the six slots over to
all `ErrorRollOver`. -/
theorem foldl_pressed_rollover (ks : List KeyCode)
    (hord : ∀ k ∈ ks, k.val = 1 ∨ (3 < k.val ∧ k.is_modifier = false)) :
    ∀ r : KbHidReport, r.keys.length = 6 → r.keys.count 0 < ks.length →
      (ks.foldl KbHidReport.pressed r).keys = List.replicate 6 1 := by
  induction ks with
  | nil => intro r _ hc; simp at hc
  | cons k ks ih =>
    intro r hlen hc
    rw [List.foldl_cons]
    rcases hord k (List.mem_cons_self k ks) with h1 | ⟨h3, hm⟩
    · refine foldl_pressed_roll_absorb ks
        (fun k' hk' => hord k' (List.mem_cons_of_mem k hk')) _ ?_
      rw [KbHidReport.pressed_err r k (Or.inl h1)]
      simp [KbHidReport.set_all, list_map_const, hlen, h1]
    · have hv : k.val ≠ 0 := by omega
      by_cases hz : 0 ∈ r.keys
      · cases hsc : setFirstZero k.val r.keys with
        | none =>
          exact absurd ((setFirstZero_eq_none_iff _ _).1 hsc) (by simp [hz])
        | some l' =>
          have hp : r.pressed k = { r with keys := l' } := by
            rw [KbHidReport.pressed_ord r k h3 hm, hsc]
          have hcnt := setFirstZero_count_zero k.val r.keys l' hv hsc
          have hpos : 0 < r.keys.count 0 := List.count_pos_iff.2 hz
          refine ih (fun k' hk' => hord k' (List.mem_cons_of_mem k hk')) _ ?_ ?_
          · rw [hp]
            exact (setFirstZero_length k.val r.keys l' hsc).trans hlen
          · rw [hp]
            show List.count 0 l' < ks.length
            simp only [List.length_cons] at hc
            omega
      · have hn : setFirstZero k.val r.keys = none :=
          (setFirstZero_eq_none_iff _ _).2 hz
        have hp : (r.pressed k).keys = List.replicate 6 1 := by
          rw [KbHidReport.pressed_ord r k h3 hm, hn]
          simp [KbHidReport.set_all, list_map_const, hlen, KeyCode.ErrorRollOver]
        exact foldl_pressed_roll_absorb ks
          (fun k' hk' => hord k' (List.mem_cons_of_mem k hk')) _ hp

/-- C3 counterexample: the claim quantifies over distinct non-modifier key
codes, but three non-modifier codes break it — `No` (consumed without
using a slot), and `PostFail` and `ErrorUndefined` (which overwrite the
slots with their own value, `0x02` resp. `0x03`).  `[No, A, B, C, D, E, F]`
are seven distinct non-modifier codes whose insertion leaves the slots
holding the letter values; `[A, B, C, D, E, F, PostFail]` leaves the slots
all `0x02`; `[A, B, C, D, E, F, ErrorUndefined]` leaves them all `0x03`.
(`ErrorRollOver` does not break the claim: it writes `0x01` itself.) -/
theorem claim_C3_counterexample :
    ([KeyCode.No, KeyCode.A, KeyCode.B, KeyCode.C, KeyCode.D, KeyCode.E,
        KeyCode.F].Nodup ∧
      (∀ k ∈ [KeyCode.No, KeyCode.A, KeyCode.B, KeyCode.C, KeyCode.D,
        KeyCode.E, KeyCode.F], k.is_modifier = false) ∧
      ¬ (KbHidReport.from_iter [KeyCode.No, KeyCode.A, KeyCode.B, KeyCode.C,
          KeyCode.D, KeyCode.E, KeyCode.F]).keys = List.replicate 6 0x01) ∧
    ([KeyCode.A, KeyCode.B, KeyCode.C, KeyCode.D, KeyCode.E, KeyCode.F,
        KeyCode.PostFail].Nodup ∧
      (∀ k ∈ [KeyCode.A, KeyCode.B, KeyCode.C, KeyCode.D, KeyCode.E,
        KeyCode.F, KeyCode.PostFail], k.is_modifier = false) ∧
      ¬ (KbHidReport.from_iter [KeyCode.A, KeyCode.B, KeyCode.C, KeyCode.D,
          KeyCode.E, KeyCode.F, KeyCode.PostFail]).keys
        = List.replicate 6 0x01) ∧
    ([KeyCode.A, KeyCode.B, KeyCode.C, KeyCode.D, KeyCode.E, KeyCode.F,
        KeyCode.ErrorUndefined].Nodup ∧
      (∀ k ∈ [KeyCode.A, KeyCode.B, KeyCode.C, KeyCode.D, KeyCode.E,
        KeyCode.F, KeyCode.ErrorUndefined], k.is_modifier = false) ∧
      ¬ (KbHidReport.from_iter [KeyCode.A, KeyCode.B, KeyCode.C, KeyCode.D,
          KeyCode.E, KeyCode.F, KeyCode.ErrorUndefined]).keys
        = List.replicate 6 0x01) := by
  decide

/-- C3 (amended): inserting more than six distinct non-modifier key codes,
none of which is `No`, `PostFail` or `ErrorUndefined` (`ErrorRollOver`
may occur: it writes `0x01` into every slot itself), yields a report
whose six slots all equal `0x01`; in particular seven distinct letter
keys give the bytes `[0,0,1,1,1,1,1,1]`. -/
theorem claim_C3_rollover (ks : List KeyCode) (_hd : ks.Nodup)
    (hkc : ∀ k ∈ ks, k.is_modifier = false ∧
      k.val ≠ 0x00 ∧ k.val ≠ 0x02 ∧ k.val ≠ 0x03)
    (hlen : 6 < ks.length) :
    (KbHidReport.from_iter ks).keys = List.replicate 6 0x01 ∧
    (KbHidReport.from_iter [KeyCode.A, KeyCode.B, KeyCode.C, KeyCode.D,
      KeyCode.E, KeyCode.F, KeyCode.G]).as_bytes
      = [0, 0, 0x01, 0x01, 0x01, 0x01, 0x01, 0x01] := by
  refine ⟨?_, by decide⟩
  refine foldl_pressed_rollover ks ?_ KbHidReport.default (by decide)
    (by simpa [KbHidReport.default] using hlen)
  intro k hk
  obtain ⟨hm, h0, h2, h3⟩ := hkc k hk
  by_cases h1 : k.val = 1
  · exact Or.inl h1
  · exact Or.inr ⟨by omega, hm⟩

/-- C3 witness: seven distinct letter keys roll the slots over. -/
theorem claim_C3_witness :
    (KbHidReport.from_iter [KeyCode.A, KeyCode.B, KeyCode.C, KeyCode.D,
      KeyCode.E, KeyCode.F, KeyCode.G]).keys = List.replicate 6 0x01 :=
  (claim_C3_rollover [KeyCode.A, KeyCode.B, KeyCode.C, KeyCode.D, KeyCode.E,
    KeyCode.F, KeyCode.G] (by decide) (by decide) (by decide)).1

/-- `No` and modifier presses do not touch the key slots. -/
theorem KbHidReport.pressed_keys_id (r : KbHidReport) (k : KeyCode)
    (h : k.val = 0 ∨ k.is_modifier = true) : (r.pressed k).keys = r.keys := by
  rcases h with h | h
  · rw [KbHidReport.pressed_no r k h]
  · rw [KbHidReport.pressed_mod r k h]

/-- An ordinary press on a report with a free slot performs the slot scan
successfully. -/
theorem KbHidReport.pressed_keys_some (r : KbHidReport) (k : KeyCode)
    (h3 : 3 < k.val) (hm : k.is_modifier = false) (hz : 0 ∈ r.keys) :
    ∃ l', setFirstZero k.val r.keys = some l' ∧ (r.pressed k).keys = l' := by
  cases hsc : setFirstZero k.val r.keys with
  | none => exact absurd ((setFirstZero_eq_none_iff _ _).1 hsc) (by simp [hz])
  | some l' =>
    refine ⟨l', rfl, ?_⟩
    rw [KbHidReport.pressed_ord r k h3 hm, hsc]

/-- Every key code that is not an error code is `No`, a modifier, or an
ordinary code. -/
theorem KeyCode.not_err_cases (k : KeyCode)
    (h : ¬ (k.val = 0x01 ∨ k.val = 0x02 ∨ k.val = 0x03)) :
    (k.val = 0 ∨ k.is_modifier = true) ∨ (3 < k.val ∧ k.is_modifier = false) := by
  by_cases hm : k.is_modifier
  · exact Or.inl (Or.inr hm)
  · have hm' : k.is_modifier = false := by simpa using hm
    by_cases h0 : k.val = 0
    · exact Or.inl (Or.inl h0)
    · exact Or.inr ⟨by omega, hm'⟩

/-- C4: when pressing `k1` and `k2` in either order overwrites no full
slot bank (no rollover and no error code), the two orders agree on byte 0,
on byte 1, and on the multiset of slot values. -/
theorem claim_C4_pressed_comm (r : KbHidReport) (k1 k2 : KeyCode)
    (h1a : ¬ r.overwrites_all k1)
    (h1b : ¬ (r.pressed k1).overwrites_all k2)
    (h2a : ¬ r.overwrites_all k2)
    (h2b : ¬ (r.pressed k2).overwrites_all k1) :
    ((r.pressed k1).pressed k2).modifiers = ((r.pressed k2).pressed k1).modifiers ∧
    ((r.pressed k1).pressed k2).reserved = ((r.pressed k2).pressed k1).reserved ∧
    ((r.pressed k1).pressed k2).keys.Perm ((r.pressed k2).pressed k1).keys := by
  have hne1 : ¬ (k1.val = 0x01 ∨ k1.val = 0x02 ∨ k1.val = 0x03) :=
    fun h => h1a (Or.inl h)
  have hne2 : ¬ (k2.val = 0x01 ∨ k2.val = 0x02 ∨ k2.val = 0x03) :=
    fun h => h2a (Or.inl h)
  refine ⟨?_, ?_, ?_⟩
  · rw [KbHidReport.pressed_modifiers, KbHidReport.pressed_modifiers,
      KbHidReport.pressed_modifiers, KbHidReport.pressed_modifiers,
      Nat.lor_assoc, Nat.lor_assoc, Nat.lor_comm k1.as_modifier_bit]
  · rw [KbHidReport.pressed_reserved, KbHidReport.pressed_reserved,
      KbHidReport.pressed_reserved, KbHidReport.pressed_reserved]
  · rcases KeyCode.not_err_cases k1 hne1 with hid1 | ⟨h31, hm1⟩
    · rcases KeyCode.not_err_cases k2 hne2 with hid2 | ⟨h32, hm2⟩
      · rw [KbHidReport.pressed_keys_id _ k2 hid2,
          KbHidReport.pressed_keys_id _ k1 hid1,
          KbHidReport.pressed_keys_id _ k1 hid1,
          KbHidReport.pressed_keys_id _ k2 hid2]
      · have hz2 : 0 ∈ (r.pressed k1).keys := by
          by_contra hz
          exact h1b (Or.inr ⟨h32, hm2, hz⟩)
        have hz2r : 0 ∈ r.keys := by
          rwa [KbHidReport.pressed_keys_id _ k1 hid1] at hz2
        obtain ⟨la, hsa, hka⟩ :=
          KbHidReport.pressed_keys_some (r.pressed k1) k2 h32 hm2 hz2
        obtain ⟨lb, hsb, hkb⟩ :=
          KbHidReport.pressed_keys_some r k2 h32 hm2 hz2r
        rw [hka, KbHidReport.pressed_keys_id _ k1 hid1, hkb]
        rw [KbHidReport.pressed_keys_id _ k1 hid1] at hsa
        rw [hsa] at hsb
        exact (Option.some_inj.1 hsb) ▸ List.Perm.refl _
    · rcases KeyCode.not_err_cases k2 hne2 with hid2 | ⟨h32, hm2⟩
      · have hz1 : 0 ∈ (r.pressed k2).keys := by
          by_contra hz
          exact h2b (Or.inr ⟨h31, hm1, hz⟩)
        have hz1r : 0 ∈ r.keys := by
          rwa [KbHidReport.pressed_keys_id _ k2 hid2] at hz1
        obtain ⟨la, hsa, hka⟩ :=
          KbHidReport.pressed_keys_some (r.pressed k2) k1 h31 hm1 hz1
        obtain ⟨lb, hsb, hkb⟩ :=
          KbHidReport.pressed_keys_some r k1 h31 hm1 hz1r
        rw [KbHidReport.pressed_keys_id _ k2 hid2, hkb, hka]
        rw [KbHidReport.pressed_keys_id _ k2 hid2] at hsa
        rw [hsa] at hsb
        exact (Option.some_inj.1 hsb) ▸ List.Perm.refl _
      · have hz1 : 0 ∈ r.keys := by
          by_contra hz
          exact h1a (Or.inr ⟨h31, hm1, hz⟩)
        obtain ⟨la, hsa, hka⟩ := KbHidReport.pressed_keys_some r k1 h31 hm1 hz1
        obtain ⟨lb, hsb, hkb⟩ := KbHidReport.pressed_keys_some r k2 h32 hm2 hz1
        have hza : 0 ∈ (r.pressed k1).keys := by
          by_contra hz
          exact h1b (Or.inr ⟨h32, hm2, hz⟩)
        have hzb : 0 ∈ (r.pressed k2).keys := by
          by_contra hz
          exact h2b (Or.inr ⟨h31, hm1, hz⟩)
        obtain ⟨lab, hsab, hkab⟩ :=
          KbHidReport.pressed_keys_some (r.pressed k1) k2 h32 hm2 hza
        obtain ⟨lba, hsba, hkba⟩ :=
          KbHidReport.pressed_keys_some (r.pressed k2) k1 h31 hm1 hzb
        rw [hkab, hkba]
        rw [hka] at hsab
        rw [hkb] at hsba
        exact setFirstZero_comm k1.val k2.val (by omega) (by omega)
          r.keys la lab lb lba hsa hsab hsb hsba

/-- C4 witness: pressing `A` then `B` and `B` then `A` on the default
report agree on bytes 0 and 1 and up to ordering on the slots. -/
theorem claim_C4_witness :
    ((KbHidReport.default.pressed KeyCode.A).pressed KeyCode.B).modifiers
      = ((KbHidReport.default.pressed KeyCode.B).pressed KeyCode.A).modifiers ∧
    ((KbHidReport.default.pressed KeyCode.A).pressed KeyCode.B).reserved
      = ((KbHidReport.default.pressed KeyCode.B).pressed KeyCode.A).reserved ∧
    ((KbHidReport.default.pressed KeyCode.A).pressed KeyCode.B).keys.Perm
      ((KbHidReport.default.pressed KeyCode.B).pressed KeyCode.A).keys :=
  claim_C4_pressed_comm KbHidReport.default KeyCode.A KeyCode.B
    (by decide) (by decide) (by decide) (by decide)

/-- C10: `pressed` does not deduplicate: an ordinary code pressed twice on
a report with at least two free slots occupies two slots (its slot count
rises by exactly two), so `pressed` is not idempotent on such codes before
rollover; and six insertions of the same ordinary code followed by a
seventh ordinary insertion roll the slots over. -/
theorem claim_C10_no_dedup (r : KbHidReport) (k k2 : KeyCode)
    (h3 : 3 < k.val) (hm : k.is_modifier = false)
    (h32 : 3 < k2.val) (hm2 : k2.is_modifier = false)
    (hz : 2 ≤ r.keys.count 0) :
    ((r.pressed k).pressed k).keys.count k.val = r.keys.count k.val + 2 ∧
    (r.pressed k).pressed k ≠ r.pressed k ∧
    (KbHidReport.from_iter (List.replicate 6 k ++ [k2])).keys
      = List.replicate 6 0x01 := by
  have hv : k.val ≠ 0 := by omega
  have hmem : (0 : Nat) ∈ r.keys := List.count_pos_iff.1 (by omega)
  obtain ⟨l1, hs1, hk1⟩ := KbHidReport.pressed_keys_some r k h3 hm hmem
  have hc1 := setFirstZero_count_self k.val r.keys l1 hv hs1
  have hz1 := setFirstZero_count_zero k.val r.keys l1 hv hs1
  have hmem1 : (0 : Nat) ∈ (r.pressed k).keys := by
    rw [hk1]
    exact List.count_pos_iff.1 (by omega)
  obtain ⟨l2, hs2, hk2m⟩ :=
    KbHidReport.pressed_keys_some (r.pressed k) k h3 hm hmem1
  rw [hk1] at hs2
  have hc2 := setFirstZero_count_self k.val l1 l2 hv hs2
  refine ⟨?_, ?_, ?_⟩
  · rw [hk2m, hc2, hc1]
  · intro heq
    have hcc : ((r.pressed k).pressed k).keys.count k.val
        = (r.pressed k).keys.count k.val := by rw [heq]
    rw [hk2m, hc2, hk1, hc1] at hcc
    omega
  · refine foldl_pressed_rollover _ ?_ KbHidReport.default (by decide) ?_
    · intro k' hk'
      simp only [List.mem_append, List.mem_replicate, List.mem_singleton] at hk'
      rcases hk' with ⟨_, rfl⟩ | rfl
      · exact Or.inr ⟨h3, hm⟩
      · exact Or.inr ⟨h32, hm2⟩
    · show List.count 0 KbHidReport.default.keys
        < (List.replicate 6 k ++ [k2]).length
      simp [KbHidReport.default]

/-- C10 witness: the letter `A` pressed twice on the empty report, and six
`A` presses followed by a `B` press. -/
theorem claim_C10_witness :
    ((KbHidReport.default.pressed KeyCode.A).pressed KeyCode.A).keys.count
        KeyCode.A.val = KbHidReport.default.keys.count KeyCode.A.val + 2 ∧
    (KbHidReport.default.pressed KeyCode.A).pressed KeyCode.A
      ≠ KbHidReport.default.pressed KeyCode.A ∧
    (KbHidReport.from_iter (List.replicate 6 KeyCode.A ++ [KeyCode.B])).keys
      = List.replicate 6 0x01 :=
  claim_C10_no_dedup KbHidReport.default KeyCode.A KeyCode.B (by decide)
    (by decide) (by decide) (by decide) (by decide)
